import Mathlib

/-!
Shallow embedding of the API_G repository (src/etl_games.py, src/scraper.py,
src/api_games_sans_auth.py) and proofs about it.

Python strings are modelled as `List Char` (`Str`); Python `int` as `Int` or
`Nat`; Python `float` values arising from parsing decimal literals as `ℚ`
(every value produced by the modelled parses is exactly representable);
fallible code as `Option`/`Except`.  External collaborators (the HTTP stack,
BeautifulSoup's CSS selection, the MySQL engine) enter as explicit oracle
parameters; everything the repository itself computes is translated from the
source.
-/

set_option maxRecDepth 8192

namespace ApiG

/-- Python `str` modelled as a list of characters. -/
abbrev Str := List Char

/-- ASCII-and-Unicode lowercase of one character (models Python `str.lower`
and the case folding of the store's case-insensitive collation on the
characters the pipeline handles). -/
def charLower (c : Char) : Char := c.toLower

/-- `str.lower` on a whole string. -/
def pyLower (s : Str) : Str := s.map charLower

/-- The characters Python `str.strip()` removes. -/
def isPySpace (c : Char) : Bool :=
  c = ' ' || c = '\t' || c = '\n' || c = '\x0d' || c = '\x0b' || c = '\x0c'

/-- `str.strip()`: drop leading and trailing whitespace. -/
def pyStrip (s : Str) : Str :=
  ((s.dropWhile isPySpace).reverse.dropWhile isPySpace).reverse

/-- Python `str.split(sep)` for a one-character separator: splits at every
occurrence, keeping empty pieces.  The result is never the empty list. -/
def pySplitChar (sep : Char) : Str → List Str
  | [] => [[]]
  | c :: rest =>
    match pySplitChar sep rest with
    | [] => [[]]
    | h :: t => if c = sep then [] :: h :: t else (c :: h) :: t

/-- Python `sep.join(pieces)`. -/
def pyJoin (sep : Str) : List Str → Str
  | [] => []
  | [x] => x
  | x :: y :: xs => x ++ sep ++ pyJoin sep (y :: xs)

/-- Python `s.replace(",", ".")` (both arguments one character wide in the
source, so a character-wise map is exact). -/
def pyReplaceComma (s : Str) : Str := s.map (fun c => if c = ',' then '.' else c)

/-- `s.startswith(pre)`. -/
def strStarts (pre s : Str) : Bool := s.take pre.length == pre

/-- Python `str.splitlines()` over the line breaks the scraped robots.txt
bodies can contain (`\n`, `\r\n`, `\r`): a trailing break opens no final
empty line. -/
def splitLinesAux : Str → Str → List Str
  | [], acc => if acc = [] then [] else [acc.reverse]
  | '\x0d' :: '\n' :: rest, acc => acc.reverse :: splitLinesAux rest []
  | '\x0d' :: rest, acc => acc.reverse :: splitLinesAux rest []
  | '\n' :: rest, acc => acc.reverse :: splitLinesAux rest []
  | c :: rest, acc => splitLinesAux rest (c :: acc)

/-- `str.splitlines()`. -/
def splitLines (s : Str) : List Str := splitLinesAux s []

/-- One canonical Game record: the dict built by both normalization paths
(`rawg_fetch_latest` in etl_games.py, `parse_list_page` in scraper.py) and
consumed by the dedup/upsert stage and the read API. -/
structure Row where
  game_id : Option Int
  title : Option Str
  platforms : Option Str
  genres : Option Str
  release_date : Option Str
  rating : Option ℚ
  source : Str
  raw_json : Option Str
deriving Repr, DecidableEq

/-! ## Reconciliation: dedup by `game_id`, keeping the last (etl_games.py `main`,
lines 239–246).

The Python dict is modelled as an insertion-ordered association list:
assigning to an existing key overwrites the value in place, a new key is
appended.  That is exactly CPython's dict semantics as far as
`dict.values()` order and content are concerned. -/

/-- `dedup[k] = v` on an insertion-ordered dict. -/
def dictInsert (m : List (Int × Row)) (k : Int) (v : Row) : List (Int × Row) :=
  if (m.map Prod.fst).contains k then
    m.map (fun p => if p.1 = k then (k, v) else p)
  else m ++ [(k, v)]

/-- One iteration of the dedup loop in `main`: `if r.get("game_id") is None:
continue; dedup[r["game_id"]] = r`. -/
def dedupStep (m : List (Int × Row)) (r : Row) : List (Int × Row) :=
  match r.game_id with
  | none => m
  | some k => dictInsert m k r

/-- The loop `for r in rows: …` from `main`. -/
def dedupFold (rows : List Row) : List (Int × Row) :=
  rows.foldl dedupStep []

/-- `rows = list(dedup.values())`. -/
def dedupRows (rows : List Row) : List Row := (dedupFold rows).map Prod.snd

/-- The keys of the modelled dict, in insertion order. -/
def dictKeys (m : List (Int × Row)) : List Int := m.map Prod.fst

/-- Every entry's value carries its key as its `game_id` (true of everything
the dedup loop inserts). -/
def EntriesWF (m : List (Int × Row)) : Prop := ∀ p ∈ m, p.2.game_id = some p.1

/-- The dedup stage of one ETL run: `rows` is the catalog rows followed by the
scraped rows, in the order `main` extends its list. -/
def dedupStage (catalog scraped : List Row) : List Row := dedupRows (catalog ++ scraped)

/-! ## Upsert (etl_games.py `upsert_rows`, lines 113–119).

The SQLAlchemy engine is modelled by the trace of store-touching events the
call emits: `with engine.begin()` acquires a connection and opens a
transaction, `conn.execute(stmt, rows)` runs the upsert statement, leaving
the block commits. -/

/-- One store-touching effect of `upsert_rows`. -/
inductive DbEvent
  | connect
  | beginTxn
  | execUpsert (table : Str) (rows : List Row)
  | commit
deriving Repr, DecidableEq

/-- `upsert_rows(engine, table, rows)`: the returned count and the emitted
store events, in order. -/
def upsert_rows (table : Str) (rows : List Row) : Nat × List DbEvent :=
  if rows.isEmpty then (0, [])
  else
    (rows.length,
      [DbEvent.connect, DbEvent.beginTxn, DbEvent.execUpsert table rows, DbEvent.commit])

/-! ## SHA-256 (the `hashlib.sha256` the scraper's `_hash_id` relies on),
embedded over `Nat` with explicit reduction modulo `2^32`. -/

/-- `2^32`, the word modulus. -/
def m32 : Nat := 4294967296

/-- 32-bit addition. -/
def add32 (a b : Nat) : Nat := (a + b) % m32

/-- Rotate a 32-bit word right by `n`. -/
def rotr (n x : Nat) : Nat := ((x >>> n) ||| (x <<< (32 - n))) % m32

/-- SHA-256 big sigma 0. -/
def bigSigma0 (x : Nat) : Nat := rotr 2 x ^^^ rotr 13 x ^^^ rotr 22 x

/-- SHA-256 big sigma 1. -/
def bigSigma1 (x : Nat) : Nat := rotr 6 x ^^^ rotr 11 x ^^^ rotr 25 x

/-- SHA-256 small sigma 0. -/
def smallSigma0 (x : Nat) : Nat := rotr 7 x ^^^ rotr 18 x ^^^ (x >>> 3)

/-- SHA-256 small sigma 1. -/
def smallSigma1 (x : Nat) : Nat := rotr 17 x ^^^ rotr 19 x ^^^ (x >>> 10)

/-- SHA-256 Ch, with `¬x` as xor against the 32-bit mask. -/
def chF (x y z : Nat) : Nat := (x &&& y) ^^^ ((x ^^^ 4294967295) &&& z)

/-- SHA-256 Maj. -/
def majF (x y z : Nat) : Nat := (x &&& y) ^^^ (x &&& z) ^^^ (y &&& z)

/-- The 64 SHA-256 round constants (FIPS 180-4, here in decimal). -/
def shaK : List Nat :=
  [1116352408, 1899447441, 3049323471, 3921009573, 961987163, 1508970993,
   2453635748, 2870763221, 3624381080, 310598401, 607225278, 1426881987,
   1925078388, 2162078206, 2614888103, 3248222580, 3835390401, 4022224774,
   264347078, 604807628, 770255983, 1249150122, 1555081692, 1996064986,
   2554220882, 2821834349, 2952996808, 3210313671, 3336571891, 3584528711,
   113926993, 338241895, 666307205, 773529912, 1294757372, 1396182291,
   1695183700, 1986661051, 2177026350, 2456956037, 2730485921, 2820302411,
   3259730800, 3345764771, 3516065817, 3600352804, 4094571909, 275423344,
   430227734, 506948616, 659060556, 883997877, 958139571, 1322822218,
   1537002063, 1747873779, 1955562222, 2024104815, 2227730452, 2361852424,
   2428436474, 2756734187, 3204031479, 3329325298]

/-- `v` as `n` big-endian bytes. -/
def toBytesBE : Nat → Nat → List Nat
  | 0, _ => []
  | n + 1, v => toBytesBE n (v / 256) ++ [v % 256]

/-- SHA-256 padding of a byte message: `0x80`, zeros to 56 mod 64, then the
bit length as 8 big-endian bytes. -/
def padMsg (msg : List Nat) : List Nat :=
  msg ++ [0x80] ++ List.replicate ((119 - msg.length % 64) % 64) 0
    ++ toBytesBE 8 (8 * msg.length)

/-- Big-endian 32-bit words of a byte list. -/
def toWordsBE : List Nat → List Nat
  | b0 :: b1 :: b2 :: b3 :: rest =>
    (((b0 * 256 + b1) * 256 + b2) * 256 + b3) :: toWordsBE rest
  | _ => []

/-- Extend the 16 message-schedule words by `n` more. -/
def extendW : List Nat → Nat → List Nat
  | ws, 0 => ws
  | ws, n + 1 =>
    let l := ws.length
    let w := add32 (add32 (ws.getD (l - 16) 0) (smallSigma0 (ws.getD (l - 15) 0)))
              (add32 (ws.getD (l - 7) 0) (smallSigma1 (ws.getD (l - 2) 0)))
    extendW (ws ++ [w]) n

/-- The eight 32-bit chaining values. -/
structure H8 where
  a : Nat
  b : Nat
  c : Nat
  d : Nat
  e : Nat
  f : Nat
  g : Nat
  h : Nat
deriving Repr, DecidableEq

/-- One SHA-256 round, fed a (round constant, schedule word) pair. -/
def roundF (st : H8) (kw : Nat × Nat) : H8 :=
  let t1 := add32 st.h (add32 (bigSigma1 st.e) (add32 (chF st.e st.f st.g) (add32 kw.1 kw.2)))
  let t2 := add32 (bigSigma0 st.a) (majF st.a st.b st.c)
  ⟨add32 t1 t2, st.a, st.b, st.c, add32 st.d t1, st.e, st.f, st.g⟩

/-- Compress one 64-byte block into the chaining state. -/
def compressBlock (st : H8) (block : List Nat) : H8 :=
  let ws := extendW (toWordsBE block) 48
  let r := (shaK.zip ws).foldl roundF st
  ⟨add32 st.a r.a, add32 st.b r.b, add32 st.c r.c, add32 st.d r.d,
   add32 st.e r.e, add32 st.f r.f, add32 st.g r.g, add32 st.h r.h⟩

/-- Split into 64-byte blocks (`fuel` bounds the recursion; callers pass the
list's length). -/
def chunks64 : Nat → List Nat → List (List Nat)
  | 0, _ => []
  | _, [] => []
  | fuel + 1, l => l.take 64 :: chunks64 fuel (l.drop 64)

/-- The SHA-256 digest (32 bytes) of a byte message. -/
def sha256bytes (msg : List Nat) : List Nat :=
  let padded := padMsg msg
  let st := (chunks64 padded.length padded).foldl compressBlock
    ⟨1779033703, 3144134277, 1013904242, 2773480762,
     1359893119, 2600822924, 528734635, 1541459225⟩
  toBytesBE 4 st.a ++ toBytesBE 4 st.b ++ toBytesBE 4 st.c ++ toBytesBE 4 st.d
    ++ toBytesBE 4 st.e ++ toBytesBE 4 st.f ++ toBytesBE 4 st.g ++ toBytesBE 4 st.h

/-- UTF-8 bytes of one character (Python `str.encode("utf-8")`). -/
def utf8Bytes (c : Char) : List Nat :=
  let n := c.toNat
  if n < 0x80 then [n]
  else if n < 0x800 then [0xC0 ||| (n >>> 6), 0x80 ||| (n &&& 0x3F)]
  else if n < 0x10000 then
    [0xE0 ||| (n >>> 12), 0x80 ||| ((n >>> 6) &&& 0x3F), 0x80 ||| (n &&& 0x3F)]
  else
    [0xF0 ||| (n >>> 18), 0x80 ||| ((n >>> 12) &&& 0x3F),
     0x80 ||| ((n >>> 6) &&& 0x3F), 0x80 ||| (n &&& 0x3F)]

/-- UTF-8 encoding of a string. -/
def utf8Encode (s : Str) : List Nat := (s.map utf8Bytes).flatten

/-- scraper.py `_hash_id` (lines 81–85): join the parts with `"|"` mapping
absent parts to `""`, SHA-256 the UTF-8 bytes, take the first 16 hex digits
of the digest (= the first 8 bytes, big-endian) as an integer, and reduce it
modulo `2^63 - 1`. -/
def _hash_id (parts : List (Option Str)) : Nat :=
  let joined := pyJoin ("|".toList) (parts.map (fun p => p.getD []))
  let digest := sha256bytes (utf8Encode joined)
  ((digest.take 8).foldl (fun a b => a * 256 + b) 0) % (2 ^ 63 - 1)

/-! ## Python `float()` on the decimal literals the scraper meets, with exact
rational semantics: optional surrounding whitespace, optional sign, digits
with an optional decimal point, optional decimal exponent.  (`inf`, `nan`,
and underscore separators are outside the model; unparsable text is `none`,
which is what the `except` in `parse_list_page` turns every parse failure
into.) -/

/-- Digit string to a natural number. -/
def digitsToNat (s : Str) : Nat :=
  s.foldl (fun a c => 10 * a + (c.toNat - 48)) 0

/-- The mantissa `digits[.digits]`, needing at least one digit, as an exact
numerator/denominator pair (kept in `Nat` so the whole parse evaluates by
kernel arithmetic). -/
def parseMant (u : Str) : Option (Nat × Nat) :=
  match pySplitChar '.' u with
  | [ip] =>
    if ip ≠ [] ∧ ip.all Char.isDigit then some (digitsToNat ip, 1) else none
  | [ip, fp] =>
    if ip ++ fp ≠ [] ∧ (ip ++ fp).all Char.isDigit then
      some (digitsToNat ip * 10 ^ fp.length + digitsToNat fp, 10 ^ fp.length)
    else none
  | _ => none

/-- A decimal exponent with optional sign. -/
def parseExpPart : Str → Option Int
  | '+' :: r => if r ≠ [] ∧ r.all Char.isDigit then some (digitsToNat r) else none
  | '-' :: r => if r ≠ [] ∧ r.all Char.isDigit then some (-(digitsToNat r : Int)) else none
  | r => if r ≠ [] ∧ r.all Char.isDigit then some (digitsToNat r) else none

/-- Split a literal at its first `e`/`E`, if any. -/
def splitAtE (u : Str) : Str × Option Str :=
  match u.span (fun c => !(c == 'e' || c == 'E')) with
  | (m, []) => (m, none)
  | (m, _ :: ex) => (m, some ex)

/-- Python `float(s)` on the modelled literal subset; `none` models the
`ValueError` the builtin raises on unparsable text. -/
def pyFloat? (s : Str) : Option ℚ :=
  let t := pyStrip s
  match t with
  | [] => none
  | _ =>
    let su : Int × Str :=
      match t with
      | '+' :: r => (1, r)
      | '-' :: r => (-1, r)
      | r => (1, r)
    let (m, e) := splitAtE su.2
    match parseMant m, (match e with | none => some (0 : Int) | some ex => parseExpPart ex) with
    | some nd, some ev =>
      if 0 ≤ ev then some (mkRat (su.1 * nd.1 * 10 ^ ev.toNat) nd.2)
      else some (mkRat (su.1 * nd.1) (nd.2 * 10 ^ ev.natAbs))
    | _, _ => none

/-- scraper.py lines 111–116: normalize the extracted rating text to a float
— `float(rating.replace(",", ".").split("/")[0])` under `if rating:` and a
catch-all `except` that yields `None`. -/
def rating_val (rating : Option Str) : Option ℚ :=
  match rating with
  | none => none
  | some r =>
    if r = [] then none
    else pyFloat? ((pySplitChar '/' (pyReplaceComma r)).headD [])

/-! ## Site scraper (scraper.py).

BeautifulSoup and the HTTP stack are external collaborators.  One list item
(`ItemNode`) is the outcome of CSS selection inside that item: per selector,
the `get_text(strip=True)` of the first matching element (possibly the empty
string), and for the link selector the element's `href` attribute. -/

/-- A source descriptor (scraper.py `SourceCfg`), field and constant maps as
association lists. -/
structure SourceCfg where
  name : Str
  base_url : Str
  list_urls : List Str
  item_selector : Str
  fields : List (Str × Str)
  constant_fields : List (Str × Str)

/-- One item node of a list page, as the selection oracle sees it. -/
structure ItemNode where
  /-- `select_one(sel)` followed by `get_text(strip=True)`: `none` when no
  element matches, `some t` with the stripped text (possibly empty) otherwise. -/
  select_one : Str → Option Str
  /-- `select_one(sel)` for the link: `none` when no element matches,
  `some none` for an element without `href`, `some (some h)` otherwise. -/
  selectHref : Str → Option (Option Str)

/-- scraper.py `_select_text` (lines 75–79) composed with `_text_or_none`
(lines 69–73): empty selector or no match or empty text give `None`. -/
def _select_text (item : ItemNode) (sel : Str) : Option Str :=
  if sel = [] then none
  else
    match item.select_one sel with
    | none => none
    | some t => if t = [] then none else some t

/-- Field extraction as `parse_list_page` does it: only when the field name
is a key of `cfg.fields`. -/
def extractField (cfg : SourceCfg) (item : ItemNode) (fname : Str) : Option Str :=
  match cfg.fields.lookup fname with
  | none => none
  | some sel => _select_text item sel

/-- The link href used only for id hashing (scraper.py lines 99–104):
`cfg.fields.get("link")` must be present and truthy, the element must exist
and carry `href`. -/
def extractHref (cfg : SourceCfg) (item : ItemNode) : Option Str :=
  match cfg.fields.lookup ("link".toList) with
  | none => none
  | some sel =>
    if sel = [] then none
    else
      match item.selectHref sel with
      | some (some h) => some h
      | _ => none

/-- The body of the `for item in items` loop of `parse_list_page`
(scraper.py lines 92–136): one normalized scraped record. -/
def parseItem (cfg : SourceCfg) (item : ItemNode) : Row :=
  let title := extractField cfg item ("title".toList)
  let href := extractHref cfg item
  let platforms0 := extractField cfg item ("platforms".toList)
  let genres0 := extractField cfg item ("genres".toList)
  let release_date := extractField cfg item ("release_date".toList)
  let rating := extractField cfg item ("rating".toList)
  let platforms :=
    if platforms0.getD [] = [] ∧ (cfg.constant_fields.lookup ("platforms".toList)).isSome
    then cfg.constant_fields.lookup ("platforms".toList) else platforms0
  let genres :=
    if genres0.getD [] = [] ∧ (cfg.constant_fields.lookup ("genres".toList)).isSome
    then cfg.constant_fields.lookup ("genres".toList) else genres0
  { game_id := some ((_hash_id [some cfg.name, title, href, release_date] : Nat) : Int)
    title := title
    platforms := platforms
    genres := genres
    release_date := release_date
    rating := rating_val rating
    source := ("scrape:".toList) ++ cfg.name
    raw_json := none }

/-- `parse_list_page(html, cfg)`: `sel` is the soup oracle giving the item
nodes `soup.select(cfg.item_selector)` finds in the page. -/
def parse_list_page (sel : Str → Str → List ItemNode) (html : Str) (cfg : SourceCfg) :
    List Row :=
  (sel html cfg.item_selector).map (parseItem cfg)

/-- The outcome of one `requests.get` attempt: a raised exception, or a
response with its status code and body. -/
inductive ReqOutcome
  | exc (e : Str)
  | resp (status : Nat) (body : Str)

/-- An HTTP response that came back. -/
structure HttpResp where
  status : Nat
  body : Str

/-- `requests.get(url)` followed by `resp.raise_for_status()`: 4xx/5xx
statuses raise `HTTPError`. -/
def attemptEval : ReqOutcome → Except Str HttpResp
  | .exc e => .error e
  | .resp st b =>
    if 400 ≤ st ∧ st < 600 then .error (("HTTPError ".toList) ++ (toString st).toList)
    else .ok ⟨st, b⟩

/-- The retry loop of scraper.py `_get` (lines 55–67): `attempts i` is the
outcome of the `i`-th `requests.get` (1-based), `fuel` the attempts left,
`last` the `last_exc` cell.  `Except.ok none` is the trailing `return None`. -/
def _getAux (attempts : Nat → ReqOutcome) : Nat → Nat → Option Str →
    Except Str (Option HttpResp)
  | 0, _, none => .ok none
  | 0, _, some e => .error e
  | n + 1, i, _ =>
    match attemptEval (attempts i) with
    | .ok r => .ok (some r)
    | .error e => _getAux attempts n (i + 1) (some e)

/-- scraper.py `_get(url, retries, timeout)`. -/
def _get (attempts : Nat → ReqOutcome) (retries : Nat) : Except Str (Option HttpResp) :=
  _getAux attempts retries 1 none

/-- The world a scrape run sees: all external behaviour, keyed by URL. -/
structure World where
  /-- The robots.txt GET for a base URL: `none` when the request raised,
  `some (status, body)` otherwise. -/
  robotsResp : Str → Option (Nat × Str)
  /-- Outcome of the `i`-th `requests.get` attempt against a URL. -/
  http : Str → Nat → ReqOutcome
  /-- `soup.select` over a page body and an item selector. -/
  selectItems : Str → Str → List ItemNode

/-- scraper.py `_allowed_by_robots` (lines 39–53): any fetch failure or
non-200 status defaults to allowed; otherwise deny only when the root path
`/` stands in a `Disallow` line. -/
def _allowed_by_robots (w : World) (base_url : Str) : Bool :=
  match w.robotsResp base_url with
  | none => true
  | some (st, body) =>
    if st ≠ 200 then true
    else
      let disallow := (splitLines body).filterMap (fun line =>
        if strStarts ("disallow:".toList) (pyLower line)
        then some (pyStrip ((pySplitChar ':' line).getD 1 []))
        else none)
      !(disallow.any (· == ("/".toList)))

/-- The result of a Python call: a value, a raised exception, or the modelled
crash of `resp.text` on `None` (the `AttributeError` that branch would
raise). -/
inductive PyResult (α : Type)
  | ok (v : α)
  | exc (e : Str)
  | crash

/-- The `for url in cfg.list_urls` loop of `scrape_source` (lines 144–150):
`_get` runs with its default `retries = 3`. -/
def scrapeLoop (w : World) (cfg : SourceCfg) (limit : Nat) :
    List Str → List Row → PyResult (List Row)
  | [], out => .ok (out.take limit)
  | url :: rest, out =>
    match _get (w.http url) 3 with
    | .error e => .exc e
    | .ok none => .crash
    | .ok (some r) =>
      let out2 := out ++ parse_list_page w.selectItems r.body cfg
      if limit ≤ out2.length then .ok (out2.take limit)
      else scrapeLoop w cfg limit rest out2

/-- scraper.py `scrape_source(cfg, limit)` (lines 139–151). -/
def scrape_source (w : World) (cfg : SourceCfg) (limit : Nat) : PyResult (List Row) :=
  if _allowed_by_robots w cfg.base_url then scrapeLoop w cfg limit cfg.list_urls []
  else .ok []

/-- scraper.py `scrape_all_sources` (lines 167–177) after `load_sources`: a
raising descriptor (any exception, the modelled crash included) is skipped
and the loop continues. -/
def scrape_all_sources (w : World) (cfgs : List SourceCfg) (limit : Nat) : List Row :=
  cfgs.foldl
    (fun rows cfg =>
      match scrape_source w cfg limit with
      | .ok part => rows ++ part
      | _ => rows)
    []

/-- A concrete world whose robots.txt fetches raise and whose every page
request raises on every attempt. -/
def wFailFirst : World :=
  ⟨fun _ => none, fun _ _ => ReqOutcome.exc ("connection refused".toList), fun _ _ => []⟩

/-- A concrete descriptor whose only list URL is unreachable in
`wFailFirst`. -/
def cfgDead : SourceCfg :=
  ⟨"dead".toList, "http://dead".toList, [("http://dead/list".toList)],
   "li".toList, [], []⟩

/-- A concrete descriptor with no list pages: scraping it succeeds with zero
rows in any world. -/
def cfgEmptyPages : SourceCfg :=
  ⟨"quiet".toList, "http://quiet".toList, [], "li".toList, [], []⟩

/-- A 256-character title, one character longer than the store's bound. -/
def longTitle : Str := List.replicate 256 'a'

/-- A concrete item node whose `h2` element carries `longTitle`. -/
def itemLong : ItemNode :=
  ⟨fun sel => if sel = ("h2".toList) then some longTitle else none, fun _ => none⟩

/-- A concrete descriptor selecting only a title, from `h2`. -/
def cfgTitleOnly : SourceCfg :=
  ⟨"site".toList, "http://site".toList, [], "li".toList,
   [(("title".toList), ("h2".toList))], []⟩

/-! ## Catalog client (etl_games.py `rawg_fetch_latest`, lines 126–180).

One raw JSON entry of the catalog's `results` array, already decoded: the
fields the normalization loop reads, plus the entry's own serialized text
(what `json.dumps(g, ensure_ascii=False)` keeps as the audit payload). -/

/-- One decoded catalog entry. -/
structure RawgEntry where
  id : Option Int
  name : Option Str
  released : Option Str
  /-- Per platform wrapper `p`: `some name` when `p.get("platform")` is
  truthy and carries that name, `none` otherwise (the comprehension's
  filter). -/
  platforms : List (Option Str)
  genres : List Str
  rating : Option ℚ
  /-- The entry's JSON serialization, carried with the decoded entry. -/
  raw : Str

/-- Python `l[:n]` for an `int` bound: a negative bound drops that many
elements from the end. -/
def pySlice {α : Type} (l : List α) (n : Int) : List α :=
  if n < 0 then l.take (l.length - n.natAbs) else l.take n.toNat

/-- The per-entry normalization of `rawg_fetch_latest` (lines 156–172). -/
def normalizeRawgEntry (g : RawgEntry) : Row :=
  let title := match g.name with
    | none => none
    | some t => if t = [] then none else some (t.take 255)
  let platformsJoined := pyJoin (", ".toList) (g.platforms.filterMap id)
  let genresJoined := pyJoin (", ".toList) g.genres
  { game_id := g.id
    title := title
    platforms := if platformsJoined = [] then none else some (platformsJoined.take 255)
    genres := if genresJoined = [] then none else some (genresJoined.take 255)
    release_date := match g.released with
      | some [] => none
      | x => x
    rating := g.rating
    source := ("rawg".toList)
    raw_json := some g.raw }

/-- What one iteration of the retry loop observes: a 2xx response with a
decoded `results` array, a 429 with its optional numeric `Retry-After`
header, or any raise inside the `try` (network error, `raise_for_status`,
JSON decoding). -/
inductive RawgAttempt
  | ok (entries : List RawgEntry)
  | rate (retryAfter : Option Nat)
  | fail (e : Str)

/-- How a `rawg_fetch_latest` call ends: the normalized rows, a re-raised
exception, or the failure of `assert last_exc is not None`. -/
inductive FetchOutcome
  | success (rows : List Row)
  | raised (e : Str)
  | assertFailed

/-- The `for attempt in range(1, retries + 1)` loop (lines 143–180): `fuel`
counts the attempts left, `i` is the 1-based attempt number, `last` the
`last_exc` cell.  The second component logs every `time.sleep` duration:
`Retry-After` (default 10) on a 429, linear backoff `2 * attempt` on a
failure. -/
def rawgLoop (attempts : Nat → RawgAttempt) (limit : Int) :
    Nat → Nat → Option Str → FetchOutcome × List Nat
  | 0, _, some e => (.raised e, [])
  | 0, _, none => (.assertFailed, [])
  | n + 1, i, last =>
    match attempts i with
    | .ok entries => (.success ((pySlice entries limit).map normalizeRawgEntry), [])
    | .rate wait =>
      let r := rawgLoop attempts limit n (i + 1) last
      (r.1, wait.getD 10 :: r.2)
    | .fail e =>
      let r := rawgLoop attempts limit n (i + 1) (some e)
      (r.1, 2 * i :: r.2)

/-- etl_games.py `rawg_fetch_latest(api_key, limit, timeout, retries)`: an
empty API key raises before any attempt. -/
def rawg_fetch_latest (api_key : Str) (attempts : Nat → RawgAttempt) (limit : Int)
    (retries : Nat) : FetchOutcome × List Nat :=
  if api_key = [] then
    (.raised ("RAWG_API_KEY manquant. Renseignez-le dans .env".toList), [])
  else rawgLoop attempts limit retries 1 none

/-- A concrete catalog entry whose `name` is absent. -/
def entryNoName : RawgEntry := ⟨some 7, none, none, [], [], none, "\x7b\x7d".toList⟩

/-! ## Read API (api_games_sans_auth.py).

Each handler body runs inside `try: … except Exception as e: raise
HTTPException(500, "Erreur interne : " + str(e))`.  FastAPI's
`HTTPException` subclasses `Exception`, so the `404`s the bodies raise are
caught by that blanket handler too.  The handlers are modelled after the
token dependency has accepted the request (a valid token), with the store's
`games` table as input. -/

/-- A Python exception as the handlers see one: an `HTTPException` or any
other exception rendered by `str(e)`. -/
inductive PyExc
  | http (status : Nat) (detail : Str)
  | err (msg : Str)

/-- `str(e)`: starlette renders an `HTTPException` as
`f"{status_code}: {detail}"`. -/
def pyStr : PyExc → Str
  | .http st d => (toString st).toList ++ (": ".toList) ++ d
  | .err m => m

/-- What a handler sends back: a JSON object under a named key, or an HTTP
error status with its detail. -/
inductive ApiResult
  | payload (key : Str) (games : List Row)
  | httpError (status : Nat) (detail : Str)
deriving Repr, DecidableEq

/-- The games an `ApiResult` carries (none on an error response). -/
def gamesOf : ApiResult → List Row
  | .payload _ games => games
  | .httpError _ _ => []

/-- The `except Exception` wrapper every handler ends with. -/
def guardEndpoint (body : Except PyExc ApiResult) : ApiResult :=
  match body with
  | .ok r => r
  | .error e => .httpError 500 (("Erreur interne : ".toList) ++ pyStr e)

/-- The `SELECT` a handler issues: the rows that came back, or the raise of
the DB driver. -/
inductive Fetch
  | ok (rows : List Row)
  | raise (e : Str)

/-- `GET /games` (`get_all_games`, lines 60–73). -/
def get_all_games (f : Fetch) : ApiResult :=
  guardEndpoint
    (match f with
     | .raise e => .error (.err e)
     | .ok games =>
       if games.isEmpty then .error (.http 404 ("Aucun jeu trouvé.".toList))
       else .ok (.payload ("games".toList) games))

/-- Helper for `likeMatch`: does the rest of the pattern match some suffix of
`s` (what a `%` wildcard may swallow)? -/
def likeStar (f : Str → Bool) : Str → Bool
  | [] => f []
  | d :: s => f (d :: s) || likeStar f s

/-- MySQL `LIKE` under the store's case-insensitive collation, on the
pattern's full wildcard semantics: `%` matches any run, `_` any one
character, anything else itself up to case. -/
def likeMatch : Str → Str → Bool
  | [], s => s.isEmpty
  | c :: p, s =>
    if c = '%' then likeStar (likeMatch p) s
    else
      match s with
      | [] => false
      | d :: s2 => (if c = '_' then true else charLower c == charLower d) && likeMatch p s2

/-- `column LIKE '%needle%'` applied to a nullable column: SQL `NULL LIKE …`
selects nothing. -/
def likeOpt (needle : Str) : Option Str → Bool
  | none => false
  | some s => likeMatch ('%' :: (needle ++ ['%'])) s

/-- `GET /games/title/{game_title}` (`get_game_by_title`, lines 75–88): the
`WHERE title LIKE %s` runs in the store, the emptiness checks in the
handler. -/
def get_game_by_title (f : Fetch) (game_title : Str) : ApiResult :=
  guardEndpoint
    (match f with
     | .raise e => .error (.err e)
     | .ok rows =>
       let games := rows.filter (fun r => likeOpt game_title r.title)
       if games.isEmpty then .error (.http 404 ("Aucun jeu trouvé avec ce titre.".toList))
       else .ok (.payload ("games".toList) games))

/-- The Python refilter of `get_games_by_genre` (lines 163–168): keep a game
when its truthy `genres` string, split on `,` with each piece stripped and
lowered, contains the requested genre lowered. -/
def exactGenre (genre_name : Str) (r : Row) : Bool :=
  match r.genres with
  | none => false
  | some gs =>
    if gs = [] then false
    else ((pySplitChar ',' gs).map (fun t => pyLower (pyStrip t))).any
      (· == pyLower genre_name)

/-- A concrete stored row whose genre string holds two genres. -/
def rowActionRPG : Row :=
  ⟨some 1, some ("A".toList), none, some ("Action, RPG".toList), none, none,
   ("rawg".toList), none⟩

/-- `GET /games/genre/{genre_name}` (`get_games_by_genre`, lines 152–173). -/
def get_games_by_genre (f : Fetch) (genre_name : Str) : ApiResult :=
  guardEndpoint
    (match f with
     | .raise e => .error (.err e)
     | .ok rows =>
       let games := rows.filter (fun r => likeOpt genre_name r.genres)
       if games.isEmpty then
         .error (.http 404 (("Aucun jeu trouvé pour le genre '".toList)
           ++ genre_name ++ ("'.".toList)))
       else
         let filtered := games.filter (exactGenre genre_name)
         if filtered.isEmpty then
           .error (.http 404 (("Aucun jeu trouvé pour le genre exact '".toList)
             ++ genre_name ++ ("'.".toList)))
         else .ok (.payload ("games".toList) filtered))

/-! ## Sanity anchors for the embedded externals -/

/-- The embedded SHA-256 reproduces the standard `"abc"` test vector. -/
theorem sha256_abc_vector :
    sha256bytes [97, 98, 99] =
      [186, 120, 22, 191, 143, 1, 207, 234, 65, 65, 64, 222, 93, 174, 34, 35,
       176, 3, 97, 163, 150, 23, 122, 156, 180, 16, 255, 97, 242, 0, 21, 173] := by
  decide

/-! ## Claim theorems -/

/-- **C2** (code bug, evaluated at the failing input).  When every attempt of
`rawg_fetch_latest` comes back `429`, the loop sleeps the `Retry-After`
duration (10 s when the header is absent) before each retry and the 429s use
up the whole retry budget — but no exception was ever recorded, so the
`assert last_exc is not None` after the loop fails: the call ends in
`AssertionError` instead of surfacing the last encountered failure as the
claim (and spec §4.1) state. -/
theorem C2_all_429_ends_in_assert :
    rawg_fetch_latest ("k".toList) (fun _ => RawgAttempt.rate none) 50 3
      = (FetchOutcome.assertFailed, [10, 10, 10])
    ∧ rawg_fetch_latest ("k".toList) (fun _ => RawgAttempt.rate (some 5)) 50 2
      = (FetchOutcome.assertFailed, [5, 5]) :=
  ⟨rfl, rfl⟩

/-- **C3** (code bug, evaluated at the failing input).  With a valid token
and an empty result set, `GET /games` answers `500` — the handler raises
`HTTPException(404)`, but its own `except Exception` catches it (FastAPI's
`HTTPException` subclasses `Exception`) and re-raises it as
`500 "Erreur interne : 404: …"`.  A non-empty result set does answer `200`
with the rows under the `games` key, and `GET /games/title/{t}` shows the
same two behaviours. -/
theorem C3_empty_result_is_500_not_404 :
    get_all_games (Fetch.ok [])
      = ApiResult.httpError 500 (("Erreur interne : 404: Aucun jeu trouvé.").toList)
    ∧ get_all_games
        (Fetch.ok [⟨some 1, some ("A".toList), none, none, none, none, ("rawg".toList), none⟩])
      = ApiResult.payload ("games".toList)
          [⟨some 1, some ("A".toList), none, none, none, none, ("rawg".toList), none⟩]
    ∧ get_game_by_title (Fetch.ok []) ("A".toList)
      = ApiResult.httpError 500
          (("Erreur interne : 404: Aucun jeu trouvé avec ce titre.").toList) := by
  refine ⟨by decide, by decide, by decide⟩

/-- **C5** (confirmed).  The synthetic id is a pure function of the four
hash parts — identical inputs give identical output — its value is a
non-negative integer (a `Nat`) strictly below `2^63 - 1`, and the id
`parse_list_page` stores is exactly `_hash_id` of (descriptor name, title,
link href or absent, release date). -/
theorem C5_hash_id_deterministic_and_bounded :
    (∀ p q : List (Option Str), p = q → _hash_id p = _hash_id q)
    ∧ (∀ parts : List (Option Str), _hash_id parts < 2 ^ 63 - 1)
    ∧ (∀ cfg item, (parseItem cfg item).game_id
        = some ((_hash_id [some cfg.name, extractField cfg item ("title".toList),
            extractHref cfg item, extractField cfg item ("release_date".toList)] : Nat) : Int)) :=
  ⟨fun _ _ h => by rw [h],
   fun parts => Nat.mod_lt _ (by norm_num),
   fun _ _ => rfl⟩

/-- **C5 witness**: the determinism conjunct applied at a concrete input. -/
theorem C5_hash_id_witness :
    _hash_id [some ("site".toList), some ("Zelda".toList), none, none]
      = _hash_id [some ("site".toList), some ("Zelda".toList), none, none] :=
  C5_hash_id_deterministic_and_bounded.1 _ _ rfl

/-- **C6** (confirmed).  Rating extraction replaces `','` by `'.'`, keeps
what stands before the first `'/'`, and parses that as a float: `"4,5/5"`
gives `4.5`, `"N/A"` and the empty string give an absent rating, an absent
node gives an absent rating, and the catch-all `except` makes the function
total — every input string yields either an absent or a parsed rating, never
an error. -/
theorem C6_rating_parse :
    rating_val (some ("4,5/5".toList)) = some ((9 : ℚ) / 2)
    ∧ rating_val (some ("N/A".toList)) = none
    ∧ rating_val (some []) = none
    ∧ rating_val none = none
    ∧ ∀ s : Str, rating_val (some s) = none ∨ ∃ q : ℚ, rating_val (some s) = some q := by
  refine ⟨?_, by decide, rfl, rfl, ?_⟩
  · have h : rating_val (some ("4,5/5".toList)) = some (mkRat 9 2) := by decide
    rw [h, Rat.mkRat_eq_div]; norm_num
  · intro s
    match h : rating_val (some s) with
    | none => exact Or.inl rfl
    | some q => exact Or.inr ⟨q, rfl⟩

/-- **C10** (confirmed).  `upsert_rows` on an empty row list returns 0 and
emits no store event at all: no connection, no transaction, no SQL. -/
theorem C10_upsert_empty_is_noop :
    ∀ table : Str, upsert_rows table [] = (0, []) :=
  fun _ => rfl

/-! ## The dedup stage (claim C1) -/

theorem map_overwrite_of_not_mem {m : List (Int × Row)} {k : Int} {v : Row}
    (h : k ∉ dictKeys m) :
    m.map (fun p => if p.1 = k then (k, v) else p) = m := by
  induction m with
  | nil => rfl
  | cons p m ih =>
    have h1 : ¬p.1 = k := fun hp => h (by simp [dictKeys, hp])
    have h2 : k ∉ dictKeys m := fun hm => h (by simp [dictKeys] at hm ⊢; exact Or.inr hm)
    simp only [List.map_cons, if_neg h1, ih h2]

theorem filter_of_key_not_mem {m : List (Int × Row)} {k : Int}
    (h : k ∉ dictKeys m) : m.filter (fun p => p.1 == k) = [] := by
  induction m with
  | nil => rfl
  | cons p m ih =>
    have h1 : ¬p.1 = k := fun hp => h (by simp [dictKeys, hp])
    have h2 : k ∉ dictKeys m := fun hm => h (by simp [dictKeys] at hm ⊢; exact Or.inr hm)
    simp [List.filter_cons, h1, ih h2]

theorem filter_map_overwrite {m : List (Int × Row)} {k k' : Int} {v : Row} (hne : k' ≠ k) :
    (m.map (fun p => if p.1 = k then (k, v) else p)).filter (fun p => p.1 == k')
      = m.filter (fun p => p.1 == k') := by
  induction m with
  | nil => rfl
  | cons p m ih =>
    by_cases hp : p.1 = k
    · simp [List.filter_cons, hp, Ne.symm hne, ih]
    · simp only [List.map_cons, if_neg hp, List.filter_cons, ih]

theorem filter_map_overwrite_self {m : List (Int × Row)} {k : Int} {v : Row}
    (hnd : (dictKeys m).Nodup) (hk : k ∈ dictKeys m) :
    (m.map (fun p => if p.1 = k then (k, v) else p)).filter (fun p => p.1 == k)
      = [(k, v)] := by
  induction m with
  | nil => simp [dictKeys] at hk
  | cons p m ih =>
    rw [dictKeys, List.map_cons, List.nodup_cons] at hnd
    by_cases hp : p.1 = k
    · have hkm : k ∉ dictKeys m := hp ▸ hnd.1
      simp [List.filter_cons, hp, map_overwrite_of_not_mem hkm, filter_of_key_not_mem hkm]
    · have hk' : k ∈ dictKeys m := by
        rw [dictKeys, List.map_cons] at hk
        rcases List.mem_cons.1 hk with h | h
        · exact absurd h.symm hp
        · exact h
      simp [List.filter_cons, hp, ih hnd.2 hk']

theorem contains_iff_mem_dictKeys (m : List (Int × Row)) (k : Int) :
    (m.map Prod.fst).contains k = true ↔ k ∈ dictKeys m := by
  rw [dictKeys]; exact List.elem_iff

theorem filter_dictInsert {m : List (Int × Row)} {k k' : Int} {v : Row}
    (hnd : (dictKeys m).Nodup) :
    (dictInsert m k v).filter (fun p => p.1 == k')
      = if k' = k then [(k, v)] else m.filter (fun p => p.1 == k') := by
  rw [dictInsert]
  by_cases hc : (m.map Prod.fst).contains k = true
  · rw [if_pos hc]
    have hk : k ∈ dictKeys m := (contains_iff_mem_dictKeys m k).1 hc
    by_cases hkk : k' = k
    · subst hkk; rw [if_pos rfl, filter_map_overwrite_self hnd hk]
    · rw [if_neg hkk, filter_map_overwrite hkk]
  · rw [if_neg hc, List.filter_append]
    have hnm : k ∉ dictKeys m := fun hm => hc ((contains_iff_mem_dictKeys m k).2 hm)
    by_cases hkk : k' = k
    · subst hkk; rw [filter_of_key_not_mem hnm]; simp [List.filter_cons]
    · rw [if_neg hkk]; simp [List.filter_cons, Ne.symm hkk]

theorem dictKeys_dictInsert (m : List (Int × Row)) (k : Int) (v : Row) :
    dictKeys (dictInsert m k v)
      = if (m.map Prod.fst).contains k = true then dictKeys m else dictKeys m ++ [k] := by
  rw [dictInsert]
  by_cases hc : (m.map Prod.fst).contains k = true
  · rw [if_pos hc, if_pos hc, dictKeys, dictKeys, List.map_map]
    refine List.map_congr_left fun p _ => ?_
    by_cases hp : p.1 = k <;> simp [hp]
  · rw [if_neg hc, if_neg hc, dictKeys, dictKeys, List.map_append]; rfl

theorem nodup_dictInsert {m : List (Int × Row)} (k : Int) (v : Row)
    (hnd : (dictKeys m).Nodup) : (dictKeys (dictInsert m k v)).Nodup := by
  rw [dictKeys_dictInsert]
  by_cases hc : (m.map Prod.fst).contains k = true
  · rwa [if_pos hc]
  · rw [if_neg hc]
    have hnm : k ∉ dictKeys m := fun hm => hc ((contains_iff_mem_dictKeys m k).2 hm)
    simp [List.nodup_append, hnd, List.Disjoint]
    intro a ha hak
    exact hnm (hak ▸ ha)

theorem wf_dictInsert {m : List (Int × Row)} {k : Int} {v : Row}
    (hwf : EntriesWF m) (hv : v.game_id = some k) : EntriesWF (dictInsert m k v) := by
  intro p hp
  rw [dictInsert] at hp
  by_cases hc : (m.map Prod.fst).contains k = true
  · rw [if_pos hc] at hp
    obtain ⟨q, hq, rfl⟩ := List.mem_map.1 hp
    by_cases hqk : q.1 = k
    · simp [hqk, hv]
    · simpa [hqk] using hwf q hq
  · rw [if_neg hc] at hp
    rcases List.mem_append.1 hp with h | h
    · exact hwf p h
    · simp at h; subst h; exact hv

theorem nodup_dedupStep {m : List (Int × Row)} (r : Row)
    (hnd : (dictKeys m).Nodup) : (dictKeys (dedupStep m r)).Nodup := by
  rw [dedupStep]
  cases r.game_id with
  | none => exact hnd
  | some k => exact nodup_dictInsert k r hnd

theorem wf_dedupStep {m : List (Int × Row)} {r : Row}
    (hwf : EntriesWF m) : EntriesWF (dedupStep m r) := by
  rw [dedupStep]
  cases h : r.game_id with
  | none => exact hwf
  | some k => exact wf_dictInsert hwf h

theorem dedupFold_go (rows : List Row) :
    ∀ m : List (Int × Row), (dictKeys m).Nodup → EntriesWF m →
      (dictKeys (List.foldl dedupStep m rows)).Nodup
      ∧ EntriesWF (List.foldl dedupStep m rows)
      ∧ ∀ k : Int, (List.foldl dedupStep m rows).filter (fun p => p.1 == k)
          = match rows.reverse.find? (fun r => r.game_id == some k) with
            | some r => [(k, r)]
            | none => m.filter (fun p => p.1 == k) := by
  induction rows with
  | nil =>
    intro m hnd hwf
    exact ⟨hnd, hwf, fun k => by simp⟩
  | cons r rows ih =>
    intro m hnd hwf
    obtain ⟨hnd', hwf', hfil'⟩ :=
      ih (dedupStep m r) (nodup_dedupStep r hnd) (wf_dedupStep hwf)
    refine ⟨hnd', hwf', fun k => ?_⟩
    rw [List.foldl_cons, hfil' k, List.reverse_cons, List.find?_append]
    cases hfind : rows.reverse.find? (fun r => r.game_id == some k) with
    | some x => rfl
    | none =>
      by_cases hr : (r.game_id == some k) = true
      · have hrk : r.game_id = some k := by simpa using hr
        have hfr : List.find? (fun r => r.game_id == some k) [r] = some r := by
          simp [List.find?, hr]
        rw [hfr]
        simp only [dedupStep, hrk]
        rw [filter_dictInsert hnd, if_pos rfl]
        rfl
      · have hrf : (r.game_id == some k) = false := by simpa using hr
        have hfr : List.find? (fun r => r.game_id == some k) [r] = none := by
          simp [List.find?, hrf]
        rw [hfr]
        simp only [dedupStep]
        cases hg : r.game_id with
        | none => rfl
        | some k0 =>
          have hk0 : ¬k = k0 := by
            intro hkk; subst hkk; rw [hg] at hrf; simp at hrf
          rw [filter_dictInsert hnd, if_neg hk0]
          rfl

theorem values_filter {m : List (Int × Row)} (hwf : EntriesWF m) (k : Int) :
    (m.map Prod.snd).filter (fun r => r.game_id == some k)
      = (m.filter (fun p => p.1 == k)).map Prod.snd := by
  induction m with
  | nil => rfl
  | cons p m ih =>
    have hp := hwf p (List.mem_cons_self p m)
    have hwf' : EntriesWF m := fun q hq => hwf q (List.mem_cons_of_mem _ hq)
    by_cases hk : p.1 = k
    · simp [List.filter_cons, hp, hk, ih hwf']
    · simp [List.filter_cons, hp, hk, ih hwf']

theorem values_filterMap_ids {m : List (Int × Row)} (hwf : EntriesWF m) :
    (m.map Prod.snd).filterMap Row.game_id = m.map Prod.fst := by
  induction m with
  | nil => rfl
  | cons p m ih =>
    have hp := hwf p (List.mem_cons_self p m)
    have hwf' : EntriesWF m := fun q hq => hwf q (List.mem_cons_of_mem _ hq)
    simp [List.filterMap_cons, hp, ih hwf']

/-- **C1** (confirmed).  The dedup stage of one run, fed the catalog rows and
then the scraped rows: every record with an absent `game_id` is dropped, each
remaining `game_id` occurs exactly once, and for each id the batch keeps
exactly the last record carrying it in concatenation order (last-write-wins
by input order — release dates play no part). -/
theorem C1_dedup_last_write_wins (catalog scraped : List Row) :
    (∀ r ∈ dedupStage catalog scraped, r.game_id ≠ none)
    ∧ ((dedupStage catalog scraped).filterMap Row.game_id).Nodup
    ∧ ∀ k : Int,
        (dedupStage catalog scraped).filter (fun r => r.game_id == some k)
          = ((catalog ++ scraped).reverse.find? (fun r => r.game_id == some k)).toList := by
  obtain ⟨hnd, hwf, hfil⟩ :=
    dedupFold_go (catalog ++ scraped) [] (by simp [dictKeys]) (by intro p hp; simp at hp)
  refine ⟨?_, ?_, ?_⟩
  · intro r hr
    rw [dedupStage, dedupRows, dedupFold] at hr
    obtain ⟨p, hp, rfl⟩ := List.mem_map.1 hr
    rw [hwf p hp]
    simp
  · rw [dedupStage, dedupRows, dedupFold, values_filterMap_ids hwf]
    exact hnd
  · intro k
    rw [dedupStage, dedupRows, dedupFold, values_filter hwf k, hfil k]
    cases hfind : (catalog ++ scraped).reverse.find? (fun r => r.game_id == some k) <;> simp

/-! ## Error isolation across descriptors (claim C7) and `_get` safety (claim C9) -/

theorem scrape_all_go (w : World) (limit : Nat) (cfgs : List SourceCfg) :
    ∀ init : List Row,
      cfgs.foldl
        (fun rows cfg =>
          match scrape_source w cfg limit with
          | .ok part => rows ++ part
          | _ => rows)
        init
      = init ++ (cfgs.map (fun cfg =>
          match scrape_source w cfg limit with
          | .ok part => part
          | _ => [])).flatten := by
  induction cfgs with
  | nil => intro init; simp
  | cons cfg cfgs ih =>
    intro init
    rw [List.foldl_cons, List.map_cons, List.flatten_cons, ih]
    cases scrape_source w cfg limit with
    | ok part => rw [List.append_assoc]
    | exc e => rw [List.nil_append]
    | crash => rw [List.nil_append]

/-- **C7** (confirmed).  `scrape_all_sources` returns exactly the
concatenation, in descriptor order, of the rows of the descriptors whose
scrape succeeded: a descriptor whose scrape raises (or would crash)
contributes zero rows and does not abort the others.  The second conjunct
shows the partial-success policy on a concrete two-descriptor world in which
the first descriptor's only list URL is unreachable on every attempt. -/
theorem C7_per_source_failure_is_isolated :
    (∀ (w : World) (cfgs : List SourceCfg) (limit : Nat),
      scrape_all_sources w cfgs limit
        = (cfgs.map (fun cfg =>
            match scrape_source w cfg limit with
            | .ok part => part
            | _ => [])).flatten)
    ∧ scrape_all_sources wFailFirst [cfgDead, cfgEmptyPages] 5 = [] := by
  constructor
  · intro w cfgs limit
    rw [scrape_all_sources, scrape_all_go w limit cfgs [], List.nil_append]
  · decide

theorem getAux_some_ne_ok_none (attempts : Nat → ReqOutcome) :
    ∀ (n i : Nat) (e0 : Str), _getAux attempts n i (some e0) ≠ Except.ok none := by
  intro n
  induction n with
  | zero => intro i e0 h; simp [_getAux] at h
  | succ n ih =>
    intro i e0 h
    rw [_getAux] at h
    cases hatt : attemptEval (attempts i) with
    | ok r => rw [hatt] at h; simp at h
    | error e => rw [hatt] at h; exact ih (i + 1) e h

theorem getAux_ne_ok_none (attempts : Nat → ReqOutcome) (n i : Nat) :
    _getAux attempts (n + 1) i none ≠ Except.ok none := by
  intro h
  rw [_getAux] at h
  cases hatt : attemptEval (attempts i) with
  | ok r => rw [hatt] at h; simp at h
  | error e => rw [hatt] at h; exact getAux_some_ne_ok_none attempts n (i + 1) e h

theorem attemptEval_ok_passed {o : ReqOutcome} {r : HttpResp}
    (h : attemptEval o = .ok r) : ¬(400 ≤ r.status ∧ r.status < 600) := by
  cases o with
  | exc e => simp [attemptEval] at h
  | resp st b =>
    rw [attemptEval] at h
    by_cases hc : 400 ≤ st ∧ st < 600
    · rw [if_pos hc] at h; cases h
    · rw [if_neg hc] at h
      cases h
      exact hc

theorem getAux_ok_some_passed (attempts : Nat → ReqOutcome) :
    ∀ (n i : Nat) (last : Option Str) (r : HttpResp),
      _getAux attempts n i last = .ok (some r) → ¬(400 ≤ r.status ∧ r.status < 600) := by
  intro n
  induction n with
  | zero =>
    intro i last r h
    cases last with
    | none => simp [_getAux] at h
    | some e => simp [_getAux] at h
  | succ n ih =>
    intro i last r h
    rw [_getAux] at h
    cases hatt : attemptEval (attempts i) with
    | ok r' =>
      rw [hatt] at h
      simp at h
      exact h ▸ attemptEval_ok_passed hatt
    | error e => rw [hatt] at h; exact ih (i + 1) (some e) r h

theorem scrapeLoop_ne_crash (w : World) (cfg : SourceCfg) (limit : Nat) :
    ∀ (urls : List Str) (out : List Row),
      scrapeLoop w cfg limit urls out ≠ PyResult.crash := by
  intro urls
  induction urls with
  | nil => intro out h; simp [scrapeLoop] at h
  | cons url rest ih =>
    intro out
    rw [scrapeLoop]
    split
    · intro h; cases h
    · rename_i heq
      exact absurd heq (getAux_ne_ok_none (w.http url) 2 1)
    · dsimp only
      split
      · intro h; cases h
      · exact ih _

/-- **C9** (confirmed).  For at least one retry, `_get` either raises the last
exception or returns a response that passed `raise_for_status`; it never
reaches its trailing `return None`.  Consequently `scrape_source` — which
calls `_get` with its default of 3 retries — never evaluates `.text` on a
`None` response (the modelled `crash` is unreachable). -/
theorem C9_get_returns_or_raises (attempts : Nat → ReqOutcome) (retries : Nat)
    (w : World) (cfg : SourceCfg) (limit : Nat) (hr : 1 ≤ retries) :
    ((∃ e, _get attempts retries = .error e)
      ∨ (∃ r, _get attempts retries = .ok (some r) ∧ ¬(400 ≤ r.status ∧ r.status < 600)))
    ∧ scrape_source w cfg limit ≠ PyResult.crash := by
  constructor
  · match hres : _get attempts retries with
    | .error e => exact Or.inl ⟨e, rfl⟩
    | .ok none =>
      obtain ⟨n, rfl⟩ : ∃ n, retries = n + 1 :=
        ⟨retries - 1, (Nat.succ_pred_eq_of_pos hr).symm⟩
      exact absurd hres (getAux_ne_ok_none attempts n 1)
    | .ok (some r) =>
      exact Or.inr ⟨r, rfl, getAux_ok_some_passed attempts retries 1 none r hres⟩
  · rw [scrape_source]
    by_cases hrb : _allowed_by_robots w cfg.base_url = true
    · rw [if_pos hrb]; exact scrapeLoop_ne_crash w cfg limit cfg.list_urls []
    · rw [if_neg hrb]; intro h; cases h

/-- **C9 witness**: the theorem applied at a concrete world in which every
attempt raises. -/
theorem C9_get_returns_or_raises_witness :
    ((∃ e, _get (fun _ => ReqOutcome.exc ("boom".toList)) 2 = .error e)
      ∨ (∃ r, _get (fun _ => ReqOutcome.exc ("boom".toList)) 2 = .ok (some r)
          ∧ ¬(400 ≤ r.status ∧ r.status < 600)))
    ∧ scrape_source wFailFirst cfgDead 5 ≠ PyResult.crash :=
  C9_get_returns_or_raises (fun _ => ReqOutcome.exc ("boom".toList)) 2
    wFailFirst cfgDead 5 (by decide)

/-! ## The genre endpoint (claim C8): the `LIKE '%g%'` prefilter never loses
an exact comma-separated match, so the endpoint's row set is exactly the
Python refilter's. -/

theorem likeStar_of_here {f : Str → Bool} {s : Str} (h : f s = true) :
    likeStar f s = true := by
  cases s with
  | nil => exact h
  | cons d s => rw [likeStar]; simp [h]

theorem likeStar_of_later {f : Str → Bool} (pre : Str) {s : Str}
    (h : likeStar f s = true) : likeStar f (pre ++ s) = true := by
  induction pre with
  | nil => exact h
  | cons a pre ih => rw [List.cons_append, likeStar]; simp [ih]

theorem likeMatch_percent_nil : ∀ s : Str, likeMatch ['%'] s = true := by
  intro s
  induction s with
  | nil => rfl
  | cons c s ih =>
    rw [likeMatch, if_pos rfl, likeStar]
    have ih' : likeStar (likeMatch []) s = true := ih
    simp [ih']

theorem likeMatch_mid (g : Str) : ∀ mid suf : Str, pyLower mid = pyLower g →
    likeMatch (g ++ ['%']) (mid ++ suf) = true := by
  induction g with
  | nil =>
    intro mid suf h
    have hm : mid = [] := by simpa [pyLower] using h
    subst hm
    simpa using likeMatch_percent_nil suf
  | cons c g ih =>
    intro mid suf h
    cases mid with
    | nil => simp [pyLower] at h
    | cons d mid =>
      rw [pyLower, pyLower, List.map_cons, List.map_cons] at h
      obtain ⟨hcd, hmid⟩ := List.cons.inj h
      rw [List.cons_append, List.cons_append, likeMatch]
      by_cases hc : c = '%'
      · rw [if_pos hc, likeStar]
        have hrec : likeStar (likeMatch (g ++ ['%'])) (mid ++ suf) = true :=
          likeStar_of_here (ih mid suf hmid)
        simp [hrec]
      · rw [if_neg hc]
        by_cases hu : c = '_'
        · simp [hu, ih mid suf hmid]
        · simp [hu, hcd, ih mid suf hmid]

theorem likeMatch_contains {g s pre mid suf : Str}
    (hs : s = pre ++ (mid ++ suf)) (h : pyLower mid = pyLower g) :
    likeMatch ('%' :: (g ++ ['%'])) s = true := by
  subst hs
  show likeStar (likeMatch (g ++ ['%'])) (pre ++ (mid ++ suf)) = true
  exact likeStar_of_later pre (likeStar_of_here (likeMatch_mid g mid suf h))

theorem pySplitChar_ne_nil (sep : Char) (s : Str) : pySplitChar sep s ≠ [] := by
  cases s with
  | nil => simp [pySplitChar]
  | cons c rest =>
    rw [pySplitChar]
    cases h : pySplitChar sep rest with
    | nil => simp
    | cons hh tt => by_cases hc : c = sep <;> simp [hc]

theorem pyJoin_pySplitChar (sep : Char) : ∀ s : Str, pyJoin [sep] (pySplitChar sep s) = s := by
  intro s
  induction s with
  | nil => rfl
  | cons c rest ih =>
    rw [pySplitChar]
    cases h : pySplitChar sep rest with
    | nil => exact absurd h (pySplitChar_ne_nil sep rest)
    | cons hh tt =>
      rw [h] at ih
      dsimp only
      by_cases hc : c = sep
      · rw [if_pos hc]
        subst hc
        simpa [pyJoin] using ih
      · rw [if_neg hc]
        cases tt with
        | nil =>
          simp only [pyJoin] at ih ⊢
          rw [ih]
        | cons x tt' =>
          simp only [pyJoin] at ih ⊢
          rw [List.cons_append, List.cons_append, ih]

theorem pyJoin_mem_decomp (sep : Str) : ∀ (parts : List Str) (t : Str), t ∈ parts →
    ∃ pre suf, pyJoin sep parts = pre ++ (t ++ suf) := by
  intro parts
  induction parts with
  | nil => intro t h; cases h
  | cons x parts ih =>
    intro t h
    rcases List.mem_cons.1 h with rfl | hmem
    · cases parts with
      | nil => exact ⟨[], [], by simp [pyJoin]⟩
      | cons y ps => exact ⟨[], sep ++ pyJoin sep (y :: ps), by simp [pyJoin]⟩
    · cases parts with
      | nil => cases hmem
      | cons y ps =>
        obtain ⟨pre, suf, heq⟩ := ih t hmem
        exact ⟨x ++ sep ++ pre, suf, by simp [pyJoin, heq, List.append_assoc]⟩

theorem pyStrip_decomp (t : Str) : ∃ a b, t = a ++ (pyStrip t ++ b) := by
  refine ⟨t.takeWhile isPySpace,
    ((t.dropWhile isPySpace).reverse.takeWhile isPySpace).reverse, ?_⟩
  rw [pyStrip]
  conv_lhs => rw [← List.takeWhile_append_dropWhile isPySpace t]
  congr 1
  calc t.dropWhile isPySpace
      = ((t.dropWhile isPySpace).reverse).reverse := by rw [List.reverse_reverse]
    _ = (List.takeWhile isPySpace (t.dropWhile isPySpace).reverse
          ++ List.dropWhile isPySpace (t.dropWhile isPySpace).reverse).reverse := by
        rw [List.takeWhile_append_dropWhile]
    _ = (List.dropWhile isPySpace (t.dropWhile isPySpace).reverse).reverse
          ++ (List.takeWhile isPySpace (t.dropWhile isPySpace).reverse).reverse := by
        rw [List.reverse_append]

theorem exact_implies_like {genre : Str} {r : Row}
    (h : exactGenre genre r = true) : likeOpt genre r.genres = true := by
  rw [exactGenre] at h
  cases hg : r.genres with
  | none => rw [hg] at h; dsimp only at h; cases h
  | some gs =>
    rw [hg] at h
    dsimp only at h
    by_cases hnil : gs = []
    · rw [if_pos hnil] at h; cases h
    · rw [if_neg hnil] at h
      obtain ⟨tl, htl, heq⟩ := List.any_eq_true.1 h
      obtain ⟨t, ht, rfl⟩ := List.mem_map.1 htl
      have heq' : pyLower (pyStrip t) = pyLower genre := by simpa using heq
      obtain ⟨pre, suf, hjoin⟩ := pyJoin_mem_decomp [','] (pySplitChar ',' gs) t ht
      rw [pyJoin_pySplitChar] at hjoin
      obtain ⟨a, b, hstrip⟩ := pyStrip_decomp t
      rw [likeOpt]
      have hs : gs = (pre ++ a) ++ (pyStrip t ++ (b ++ suf)) := by
        rw [hjoin]
        conv_lhs => rw [hstrip]
        simp [List.append_assoc]
      exact likeMatch_contains hs heq'

theorem genre_filter_filter (rows : List Row) (genre : Str) :
    (rows.filter (fun r => likeOpt genre r.genres)).filter (exactGenre genre)
      = rows.filter (exactGenre genre) := by
  rw [List.filter_filter]
  apply List.filter_congr
  intro r _
  by_cases hex : exactGenre genre r = true
  · rw [hex, exact_implies_like hex]
    simp
  · rw [Bool.not_eq_true] at hex
    rw [hex]
    simp

/-- **C8** (confirmed).  For every stored row set and genre name, the rows
`GET /games/genre/{g}` carries are exactly those whose comma-split,
whitespace-trimmed genre list contains the requested genre as an exact
case-insensitive match: the SQL `LIKE '%g%'` prefilter can only be wider, and
the Python refilter is final.  On a concrete row whose genre string is
`"Action, RPG"`: the query `"ction"` (substring of a genre only) returns
nothing, the query `"rpg"` (exact match up to case) returns the row. -/
theorem C8_genre_exact_match (rows : List Row) (genre : Str) :
    gamesOf (get_games_by_genre (Fetch.ok rows) genre)
        = rows.filter (exactGenre genre)
    ∧ gamesOf (get_games_by_genre (Fetch.ok [rowActionRPG]) ("ction".toList)) = []
    ∧ gamesOf (get_games_by_genre (Fetch.ok [rowActionRPG]) ("rpg".toList))
        = [rowActionRPG] := by
  refine ⟨?_, by decide, by decide⟩
  rw [get_games_by_genre]
  dsimp only
  by_cases h1 : (rows.filter (fun r => likeOpt genre r.genres)).isEmpty = true
  · rw [if_pos h1]
    have hnil : rows.filter (exactGenre genre) = [] := by
      rw [List.filter_eq_nil_iff]
      intro r hr hex
      have hmem : r ∈ rows.filter (fun r => likeOpt genre r.genres) :=
        List.mem_filter.2 ⟨hr, exact_implies_like hex⟩
      rw [List.isEmpty_iff.1 h1] at hmem
      cases hmem
    rw [hnil]
    rfl
  · rw [if_neg h1]
    by_cases h2 :
        ((rows.filter (fun r => likeOpt genre r.genres)).filter (exactGenre genre)).isEmpty = true
    · rw [if_pos h2]
      rw [genre_filter_filter] at h2
      rw [List.isEmpty_iff.1 h2]
      rfl
    · rw [if_neg h2]
      exact genre_filter_filter rows genre

/-! ## Title shape under normalization (claim C4) -/

theorem extractField_ne_nil {cfg : SourceCfg} {item : ItemNode} {fname t : Str}
    (h : extractField cfg item fname = some t) : t ≠ [] := by
  rw [extractField] at h
  cases hl : cfg.fields.lookup fname with
  | none => rw [hl] at h; dsimp only at h; cases h
  | some sel =>
    rw [hl] at h
    dsimp only at h
    rw [_select_text] at h
    by_cases hs : sel = []
    · rw [if_pos hs] at h; cases h
    · rw [if_neg hs] at h
      cases ho : item.select_one sel with
      | none => rw [ho] at h; cases h
      | some u =>
        rw [ho] at h
        dsimp only at h
        by_cases hu : u = []
        · rw [if_pos hu] at h; cases h
        · rw [if_neg hu] at h
          injection h with h
          exact h ▸ hu

/-- **C4 counterexample**.  The claim fails as stated, on both paths: a
scraped item whose title text is 256 characters long yields a record whose
title keeps all 256 characters (the scraper never truncates), and a catalog
entry without a `name` yields a record whose title is absent (not a
non-empty string). -/
theorem C4_counterexample :
    (¬ ∀ r ∈ parse_list_page (fun _ _ => [itemLong]) ("<html>".toList) cfgTitleOnly,
        ∃ t, r.title = some t ∧ t ≠ [] ∧ t.length ≤ 255)
    ∧ ¬ ∃ t, (normalizeRawgEntry entryNoName).title = some t ∧ t ≠ [] ∧ t.length ≤ 255 := by
  constructor
  · intro hall
    obtain ⟨t, ht, _, hlen⟩ :=
      hall (parseItem cfgTitleOnly itemLong) (by simp [parse_list_page])
    have htl : (parseItem cfgTitleOnly itemLong).title = some longTitle := by decide
    rw [htl] at ht
    injection ht with ht
    rw [← ht] at hlen
    have h256 : longTitle.length = 256 := by simp [longTitle]
    rw [h256] at hlen
    exact absurd hlen (by decide)
  · rintro ⟨t, ht, -, -⟩
    have hnone : (normalizeRawgEntry entryNoName).title = none := rfl
    rw [hnone] at ht
    cases ht

/-- **C4 amended** (the nearest true statement).  Catalog normalization
produces a title that is either absent (raw `name` missing or empty) or
non-empty with at most 255 characters; scraper normalization produces a
title that is either absent or non-empty, but applies no truncation, so a
scraped title may exceed 255 characters (see the counterexample). -/
theorem C4_title_shape :
    (∀ g : RawgEntry, (normalizeRawgEntry g).title = none
      ∨ ∃ t, (normalizeRawgEntry g).title = some t ∧ t ≠ [] ∧ t.length ≤ 255)
    ∧ ∀ (cfg : SourceCfg) (item : ItemNode), (parseItem cfg item).title = none
      ∨ ∃ t, (parseItem cfg item).title = some t ∧ t ≠ [] := by
  constructor
  · intro g
    cases hn : g.name with
    | none => exact Or.inl (by simp [normalizeRawgEntry, hn])
    | some t =>
      by_cases ht : t = []
      · exact Or.inl (by simp [normalizeRawgEntry, hn, ht])
      · refine Or.inr ⟨t.take 255, by simp [normalizeRawgEntry, hn, ht], ?_, ?_⟩
        · intro heq
          rcases List.take_eq_nil_iff.1 heq with h | h
          · cases h
          · exact ht h
        · rw [List.length_take]
          exact min_le_left 255 t.length
  · intro cfg item
    cases ht : extractField cfg item ("title".toList) with
    | none => exact Or.inl ht
    | some t =>
      exact Or.inr ⟨t, ht, extractField_ne_nil ht⟩

end ApiG
